import Mathlib

/-
  Verification of the pdf_refile tool (pdf_refile/main.py).

  The development shallowly embeds the date-resolution pipeline
  (filename regex patterns, the strptime-based parse_date loop, the
  OCR-text line scan, the interactive fallback) and the placement
  engine (datetree folder computation, collision suffixing), together
  with a step model of process_files over an explicit environment
  (per-file OCR/pdftotext outcomes, user input script, an abstract
  filesystem of existing destination files and directories).

  External effects (subprocess invocations, moves, deletions, mkdir,
  the final scratch cleanup) are recorded as an explicit action trace.
-/

namespace PdfRefile

/-- Unicode whitespace as recognised by Python: this is the set accepted
by str.isspace / str.strip and matched by the regex class used while
parsing dates (space, tab, the C0 line/paragraph controls, NEL, NBSP and
the Unicode space separators). -/
def isSpaceChar (c : Char) : Bool :=
  let n := c.toNat
  (9 ≤ n && n ≤ 13) || n == 32 || (28 ≤ n && n ≤ 31) || n == 133 || n == 160 ||
  n == 5760 || (8192 ≤ n && n ≤ 8202) || n == 8232 || n == 8233 ||
  n == 8239 || n == 8287 || n == 12288

/-- Line terminators recognised by Python str.splitlines. -/
def isLineBreakChar (c : Char) : Bool :=
  let n := c.toNat
  n == 10 || n == 11 || n == 12 || n == 13 || n == 28 || n == 29 || n == 30 ||
  n == 133 || n == 8232 || n == 8233

/-- ASCII decimal digit (the character class 0-9 used by the filename
regexes and by the strptime numeric fields). -/
def isDigitChar (c : Char) : Bool :=
  48 ≤ c.toNat && c.toNat ≤ 57

/-- ASCII letter (the character class A-Za-z of the descriptive filename
pattern). -/
def isAlphaChar (c : Char) : Bool :=
  (65 ≤ c.toNat && c.toNat ≤ 90) || (97 ≤ c.toNat && c.toNat ≤ 122)

/-- Numeric value of an ASCII digit character. -/
def digitVal (c : Char) : Nat := c.toNat - 48

/-- The ASCII digit character for a value below ten. -/
def digitChar (n : Nat) : Char := Char.ofNat (48 + n)

/-- Fuel-driven little-endian-to-big-endian decimal printer; with fuel
above n it produces the decimal digits of n, most significant first.
Structural recursion on the fuel keeps it kernel-reducible. -/
def natToDigitsAux : Nat → Nat → List Char
  | 0, _ => []
  | fuel + 1, n =>
    if n < 10 then [digitChar n]
    else natToDigitsAux fuel (n / 10) ++ [digitChar (n % 10)]

/-- Decimal digits of a natural number, as printed by CPython when a
number is formatted into a string. -/
def natToDigits (n : Nat) : List Char := natToDigitsAux (n + 1) n

/-- Python str.strip(): remove leading and trailing whitespace. -/
def pyStrip (s : String) : String :=
  String.mk (((s.data.dropWhile isSpaceChar).reverse.dropWhile isSpaceChar).reverse)

/-- Python str.lower(), on the ASCII letters that matter here. -/
def pyLower (s : String) : String :=
  String.mk (s.data.map Char.toLower)

/-- Python str.splitlines, accumulator-based: split on the recognised
terminators, treating a CRLF pair as a single break (the flag records
that the previous character was a CR, so a following LF is consumed
silently), with no trailing empty line for a terminated final line. -/
def splitlinesAux : List Char → List Char → Bool → List String
  | [], acc, _ => if acc.isEmpty then [] else [String.mk acc.reverse]
  | c :: rest, acc, prevCR =>
    if prevCR && c == '\n' then splitlinesAux rest [] false
    else if c == '\r' then String.mk acc.reverse :: splitlinesAux rest [] true
    else if isLineBreakChar c then String.mk acc.reverse :: splitlinesAux rest [] false
    else splitlinesAux rest (c :: acc) false

/-- Python str.splitlines on a string. -/
def pySplitlines (s : String) : List String := splitlinesAux s.data [] false

/-- Parsed date fields, as held by the datetime produced by strptime.
Fields a format does not mention keep the strptime defaults 1900-01-01
(every format used here mentions all three). -/
structure DateVals where
  year : Nat
  month : Nat
  day : Nat
deriving DecidableEq, Repr

/-- Tokens of a strptime format string: a literal character, a run of
whitespace (strptime turns whitespace in the format into one-or-more
whitespace in the input), and the directives %Y, %m, %d, %B, %b used by
parse_date. -/
inductive Tok where
  | lit : Char → Tok
  | wsPlus : Tok
  | year : Tok
  | monthNum : Tok
  | dayNum : Tok
  | monthFull : Tok
  | monthAbbr : Tok
deriving DecidableEq, Repr

/-- Full month names of the C locale, lowercased, in the
longest-first order in which strptime builds its alternation. -/
def monthFullNames : List (List Char × Nat) :=
  [("september".data, 9), ("february".data, 2), ("november".data, 11),
   ("december".data, 12), ("january".data, 1), ("october".data, 10),
   ("august".data, 8), ("march".data, 3), ("april".data, 4),
   ("june".data, 6), ("july".data, 7), ("may".data, 5)]

/-- Abbreviated month names of the C locale, lowercased. -/
def monthAbbrNames : List (List Char × Nat) :=
  [("jan".data, 1), ("feb".data, 2), ("mar".data, 3), ("apr".data, 4),
   ("may".data, 5), ("jun".data, 6), ("jul".data, 7), ("aug".data, 8),
   ("sep".data, 9), ("oct".data, 10), ("nov".data, 11), ("dec".data, 12)]

/-- Case-insensitive month-name lookup at the head of the input: the
first listed name that is a prefix of the (lowercased) input wins, and
the rest of the input is returned.  No listed name is a prefix of
another, so the choice is unique. -/
def tryMonthName (names : List (List Char × Nat)) (cs : List Char) :
    Option (Nat × List Char) :=
  match names with
  | [] => none
  | (nm, mo) :: rest =>
    if (cs.take nm.length).map Char.toLower == nm then some (mo, cs.drop nm.length)
    else tryMonthName rest cs

/-- First defined alternative, mirroring ordered regex alternation. -/
def orFirst (a b : Option DateVals) : Option DateVals :=
  match a with
  | some v => some v
  | none => b

/-- Backtracking matcher for a strptime format over the input, requiring
the whole input to be consumed (strptime rejects unconverted trailing
data; for the eight formats used here alternatives are tried
longest-first, so the first regex match with leftover input never hides
a full match and full-consumption matching is equivalent).  Numeric
directives follow the strptime alternations: %m is 1[0-2]|0[1-9]|[1-9]
and %d is 3[01]|[12][0-9]|0[1-9]|[1-9], each tried in that order; %Y is
exactly four digits.  Fuel exceeding tokens+input length never runs out,
since every step consumes a token or an input character. -/
def matchToksAux : Nat → List Tok → List Char → DateVals → Option DateVals
  | 0, _, _, _ => none
  | _ + 1, [], [], v => some v
  | _ + 1, [], _ :: _, _ => none
  | fuel + 1, t :: rest, cs, v =>
    match t with
    | Tok.lit c =>
      match cs with
      | x :: cs1 => if x == c then matchToksAux fuel rest cs1 v else none
      | [] => none
    | Tok.wsPlus =>
      match cs with
      | x :: cs1 =>
        if isSpaceChar x then
          orFirst (matchToksAux fuel (Tok.wsPlus :: rest) cs1 v)
            (matchToksAux fuel rest cs1 v)
        else none
      | [] => none
    | Tok.year =>
      match cs with
      | a :: b :: c :: d :: cs1 =>
        if isDigitChar a && isDigitChar b && isDigitChar c && isDigitChar d then
          matchToksAux fuel rest cs1
            { v with year := 1000 * digitVal a + 100 * digitVal b + 10 * digitVal c + digitVal d }
        else none
      | _ => none
    | Tok.monthNum =>
      orFirst
        (match cs with
         | '1' :: c :: cs1 =>
           if 48 ≤ c.toNat && c.toNat ≤ 50 then
             matchToksAux fuel rest cs1 { v with month := 10 + digitVal c }
           else none
         | _ => none)
        (orFirst
          (match cs with
           | '0' :: c :: cs1 =>
             if 49 ≤ c.toNat && c.toNat ≤ 57 then
               matchToksAux fuel rest cs1 { v with month := digitVal c }
             else none
           | _ => none)
          (match cs with
           | c :: cs1 =>
             if 49 ≤ c.toNat && c.toNat ≤ 57 then
               matchToksAux fuel rest cs1 { v with month := digitVal c }
             else none
           | [] => none))
    | Tok.dayNum =>
      orFirst
        (match cs with
         | '3' :: c :: cs1 =>
           if 48 ≤ c.toNat && c.toNat ≤ 49 then
             matchToksAux fuel rest cs1 { v with day := 30 + digitVal c }
           else none
         | _ => none)
        (orFirst
          (match cs with
           | a :: b :: cs1 =>
             if (49 ≤ a.toNat && a.toNat ≤ 50) && isDigitChar b then
               matchToksAux fuel rest cs1 { v with day := 10 * digitVal a + digitVal b }
             else none
           | _ => none)
          (orFirst
            (match cs with
             | '0' :: c :: cs1 =>
               if 49 ≤ c.toNat && c.toNat ≤ 57 then
                 matchToksAux fuel rest cs1 { v with day := digitVal c }
               else none
             | _ => none)
            (match cs with
             | c :: cs1 =>
               if 49 ≤ c.toNat && c.toNat ≤ 57 then
                 matchToksAux fuel rest cs1 { v with day := digitVal c }
               else none
             | [] => none)))
    | Tok.monthFull =>
      match tryMonthName monthFullNames cs with
      | some (mo, cs1) => matchToksAux fuel rest cs1 { v with month := mo }
      | none => none
    | Tok.monthAbbr =>
      match tryMonthName monthAbbrNames cs with
      | some (mo, cs1) => matchToksAux fuel rest cs1 { v with month := mo }
      | none => none

/-- Match a whole strptime format against a whole input. -/
def matchToks (toks : List Tok) (cs : List Char) : Option DateVals :=
  matchToksAux (toks.length + cs.length + 1) toks cs { year := 1900, month := 1, day := 1 }

/-- Gregorian leap-year rule, as used by datetime. -/
def isLeapYear (y : Nat) : Bool :=
  y % 4 == 0 && (y % 100 != 0 || y % 400 == 0)

/-- Number of days of a month, as used by datetime. -/
def daysInMonth (y m : Nat) : Nat :=
  if m == 2 then (if isLeapYear y then 29 else 28)
  else if m == 4 || m == 6 || m == 9 || m == 11 then 30
  else 31

/-- Validity check performed by the datetime constructor after the
regex match: year within MINYEAR..MAXYEAR, month 1..12, day within the
month. -/
def validDate (v : DateVals) : Bool :=
  (1 ≤ v.year && v.year ≤ 9999) && (1 ≤ v.month && v.month ≤ 12) &&
  (1 ≤ v.day && decide (v.day ≤ daysInMonth v.year v.month))

/-- datetime.strptime for one format: regex match over the whole input,
then the datetime constructor's calendar validation. -/
def strptimeFormat (toks : List Tok) (cs : List Char) : Option DateVals :=
  match matchToks toks cs with
  | some v => if validDate v then some v else none
  | none => none

/-- Zero-padded two-digit field, as printed by strftime %m and %d. -/
def pad2 (n : Nat) : List Char :=
  if n < 10 then '0' :: natToDigits n else natToDigits n

/-- strftime("%Y%m%d") on the parsed date: the year as an unpadded
decimal (as glibc prints %Y) followed by zero-padded month and day.
For the four-digit years the %Y directive accepts, the year prints as
those four digits. -/
def formatStamp (v : DateVals) : String :=
  String.mk (natToDigits v.year ++ pad2 v.month ++ pad2 v.day)

/-- Format %Y/%m/%d with the given separator in place of the slash. -/
def fmtYmd (sep : Char) : List Tok :=
  [Tok.year, Tok.lit sep, Tok.monthNum, Tok.lit sep, Tok.dayNum]

/-- Format %d/%m/%Y with the given separator in place of the slash. -/
def fmtDmy (sep : Char) : List Tok :=
  [Tok.dayNum, Tok.lit sep, Tok.monthNum, Tok.lit sep, Tok.year]

/-- Format "%B %d, %Y": full month name, whitespace, day, comma,
whitespace, year. -/
def fmtMonthFullDY : List Tok :=
  [Tok.monthFull, Tok.wsPlus, Tok.dayNum, Tok.lit ',', Tok.wsPlus, Tok.year]

/-- Format "%b %d, %Y": abbreviated month name, whitespace, day, comma,
whitespace, year. -/
def fmtMonthAbbrDY : List Tok :=
  [Tok.monthAbbr, Tok.wsPlus, Tok.dayNum, Tok.lit ',', Tok.wsPlus, Tok.year]

/-- The ordered format list of parse_date: "%Y/%m/%d", "%Y-%m-%d",
"%Y.%m.%d", "%d/%m/%Y", "%d-%m-%Y", "%d.%m.%Y", "%B %d, %Y",
"%b %d, %Y". -/
def dateFormats : List (List Tok) :=
  [fmtYmd '/', fmtYmd '-', fmtYmd '.',
   fmtDmy '/', fmtDmy '-', fmtDmy '.',
   fmtMonthFullDY, fmtMonthAbbrDY]

/-- The parse_date loop body: try each format in order, return the
stamp of the first one that parses. -/
def firstParse : List (List Tok) → List Char → Option String
  | [], _ => none
  | f :: rest, cs =>
    match strptimeFormat f cs with
    | some v => some (formatStamp v)
    | none => firstParse rest cs

/-- parse_date(line): strip the line, then try the ordered format list,
first success wins, None when every format fails. -/
def parse_date (line : String) : Option String :=
  firstParse dateFormats (pyStrip line).data

/-- Dollar-anchor adjustment: the regex end anchor also matches just
before a single newline at the very end of the string, so matching a
pattern ending in the anchor against the string is matching the
anchor-free pattern against the string with one trailing newline
removed. -/
def stripTrailingNewline (cs : List Char) : List Char :=
  match cs.getLast? with
  | some c => if c == '\n' then cs.dropLast else cs
  | none => cs

/-- Whether suf is a suffix of l, by comparing the trailing slice. -/
def endsWithChars (l suf : List Char) : Bool :=
  decide (suf.length ≤ l.length) && (l.drop (l.length - suf.length) == suf)

/-- No newline in the list: the constraint the regex dot places on the
characters matched by a dot-star. -/
def noNewline (l : List Char) : Bool :=
  l.all (fun c => c != '\n')

/-- Tail of the first filename pattern after the separator: some
newline-free middle followed by the literal lowercase ".pdf". -/
def pdfTail (rest : List Char) : Bool :=
  endsWithChars rest ".pdf".data && noNewline (rest.take (rest.length - 4))

/-- Match of the first filename regex, anchored at the start: eight
digits, an underscore or dash, any newline-free middle, and a literal
lowercase ".pdf" at the end of the name (the end anchor also accepting
one trailing newline). -/
def matchesPrefixPattern (filename : String) : Bool :=
  let cs := stripTrailingNewline filename.data
  decide ((cs.take 8).length = 8) && (cs.take 8).all isDigitChar &&
  (cs[8]? == some '_' || cs[8]? == some '-') && pdfTail (cs.drop 9)

/-- Whether some position splits the list as dot-star, whitespace,
dash, whitespace, dot-star: used for the leading part of the second
filename regex.  The whitespace characters may be newlines; the
dot-star parts may not contain one. -/
def hasSepSplit : List Char → Bool
  | [] => false
  | c1 :: rest =>
    (match rest with
     | c2 :: c3 :: rest2 =>
       isSpaceChar c1 && c2 == '-' && isSpaceChar c3 && noNewline rest2
     | _ => false)
    || ((c1 != '\n') && hasSepSplit rest)

/-- Match of the second filename regex against the (anchor-adjusted)
name, returning the captured group.  The pattern is dot-star,
whitespace-dash-whitespace, dot-star, whitespace-dash-whitespace, then
the group — letters, one whitespace, one or two digits, comma, one
whitespace, four digits — then ".pdf" at the end.  The group sits at a
forced position: scanning back from ".pdf" there are exactly four
digits, one whitespace, a comma, a maximal digit run of length one or
two, one whitespace and a maximal letter run, the runs being maximal
because their neighbours in the pattern cannot be digits or letters;
the rest of the name must still contain a whitespace-dash-whitespace
split with newline-free remainders. -/
def matchDescriptive (body : List Char) : Option (List Char) :=
  if endsWithChars body ".pdf".data then
    let rr := (body.take (body.length - 4)).reverse
    match rr with
    | y1 :: y2 :: y3 :: y4 :: w1 :: ',' :: rest2 =>
      if isDigitChar y1 && isDigitChar y2 && isDigitChar y3 && isDigitChar y4 &&
         isSpaceChar w1 then
        let ds := rest2.takeWhile isDigitChar
        if decide (1 ≤ ds.length) && decide (ds.length ≤ 2) then
          match rest2.drop ds.length with
          | w2 :: rest4 =>
            if isSpaceChar w2 then
              let ls := rest4.takeWhile isAlphaChar
              if decide (1 ≤ ls.length) then
                match rest4.drop ls.length with
                | s2 :: '-' :: s1 :: rest6 =>
                  if isSpaceChar s2 && isSpaceChar s1 && hasSepSplit rest6.reverse then
                    some ((rr.take (6 + ds.length + 1 + ls.length)).reverse)
                  else none
                | _ => none
              else none
            else none
          | _ => none
        else none
      else none
    | _ => none
  else none

/-- The captured group of the second filename regex, when the name
matches it. -/
def descriptiveGroup (filename : String) : Option (List Char) :=
  matchDescriptive (stripTrailingNewline filename.data)

/-- Whether the second filename regex matches the name. -/
def matchesDescriptivePattern (filename : String) : Bool :=
  (descriptiveGroup filename).isSome

/-- extract_date_from_filename: the eight leading digits verbatim when
the first pattern matches, else parse_date on the captured date text of
the second pattern, else None. -/
def extract_date_from_filename (filename : String) : Option String :=
  if matchesPrefixPattern filename then some (String.mk (filename.data.take 8))
  else
    match descriptiveGroup filename with
    | some grp => parse_date (String.mk grp)
    | none => none

/-- os.path.basename on POSIX: everything after the last slash. -/
def basenameOf (p : String) : String :=
  String.mk ((p.data.reverse.takeWhile (fun c => c != '/')).reverse)

/-- os.path.join on POSIX for two components: the second wins when
absolute, otherwise the pieces are joined with a single slash. -/
def joinPath (a b : String) : String :=
  if b.data.take 1 == ['/'] then b
  else if a.data == [] || a.data.getLast? == some '/' then a ++ b
  else a ++ "/" ++ b

/-- os.path.splitext restricted to a basename, returning the stem: cut
at the last dot unless every character before it is itself a dot (a
leading-dots name has no extension). -/
def splitextStem (s : String) : String :=
  match s.data.reverse.findIdx? (fun c => c == '.') with
  | none => s
  | some ridx =>
    let i := s.data.length - 1 - ridx
    if (s.data.take i).any (fun c => c != '.') then String.mk (s.data.take i) else s

/-- Match of the enumeration glob pattern "*.pdf" on a name (pathlib
glob on POSIX: case-sensitive, the star matching anything), which holds
exactly when the name ends in the literal lowercase ".pdf". -/
def globPdfMatch (name : String) : Bool :=
  endsWithChars name.data ".pdf".data

/-- os.path.exists over the abstract set of existing destination
files. -/
def pyExists (fs : List String) (p : String) : Bool :=
  fs.contains p

/-- The datetree destination folder: dest_dir joined with the stamp
character ranges 0-4, 4-6 and 6-8. -/
def destFolderOf (destDir stamp : String) : String :=
  joinPath (joinPath (joinPath destDir (String.mk (stamp.data.take 4)))
    (String.mk ((stamp.data.drop 4).take 2)))
    (String.mk ((stamp.data.drop 6).take 2))

/-- Candidate destination file for a given collision counter: the plain
basename for zero, otherwise the stem with an underscore, the decimal
counter and ".pdf" appended. -/
def candidateName (folder stem base : String) : Nat → String
  | 0 => joinPath folder base
  | n + 1 => joinPath folder (stem ++ "_" ++ String.mk (natToDigits (n + 1)) ++ ".pdf")

/-- The collision-avoidance while loop: keep incrementing the counter
while the current candidate exists.  The Python loop carries no bound;
one more iteration than there are existing files always suffices, since
each continued iteration needs a distinct name to be present in the
finite existing set, so the fuel never runs out. -/
def destLoop (fs : List String) (folder stem base : String) : Nat → Nat → String
  | 0, k => candidateName folder stem base k
  | fuel + 1, k =>
    if pyExists fs (candidateName folder stem base k) then
      destLoop fs folder stem base fuel (k + 1)
    else candidateName folder stem base k

/-- Destination file chosen by the placement engine for a basename in a
folder, given the existing files. -/
def resolveDestFile (fs : List String) (folder stem base : String) : String :=
  destLoop fs folder stem base (fs.length + 1) 0

/-- Environment data for one enumerated file: its path, whether the
ocrmypdf invocation succeeds (check=True raises otherwise), the exit
status and captured stdout of the pdftotext invocation (run without a
status check), the strftime-formatted creation date offered as the
interactive default, and the scripted interactive answers. -/
structure FileInput where
  path : String
  ocrOk : Bool
  pdftotextExit : Nat
  pdftotextOut : String
  ctimeStamp : String
  userInputs : List String
deriving DecidableEq, Repr

/-- Observable filesystem and subprocess effects of a run. -/
inductive FsAction where
  | runOcr : String → String → FsAction
  | runPdftotext : String → FsAction
  | prompt : String → FsAction
  | openCmd : String → FsAction
  | mkdirs : String → FsAction
  | move : String → String → FsAction
  | removeFile : String → FsAction
  | rmtree : String → FsAction
deriving DecidableEq, Repr

/-- Failure that aborts the run: a non-zero ocrmypdf exit (check=True)
or end of interactive input. -/
inductive RunError where
  | ocrFailed : String → RunError
  | inputEof : String → RunError
deriving DecidableEq, Repr

/-- The interactive date prompt loop: each iteration prompts; an answer
of o (any case) opens the file and repeats; any other answer ends the
loop, an empty answer standing for the suggested default.  An exhausted
script models end of input, which raises. -/
def interactiveLoop (path sugg : String) : List String → List FsAction × Option String
  | [] => ([FsAction.prompt path], none)
  | i :: rest =>
    if pyLower i == "o" then
      let r := interactiveLoop path sugg rest
      (FsAction.prompt path :: FsAction.openCmd path :: r.1, r.2)
    else ([FsAction.prompt path], some (if i == "" then sugg else i))

/-- The OCR-text scan: first line whose parse succeeds wins, the scan
stops there. -/
def scanLines : List String → Option String
  | [] => none
  | l :: ls =>
    match parse_date l with
    | some s => some s
    | none => scanLines ls

/-- Date resolution for one file after OCR: the filename strategies,
else the pdftotext line scan, else the interactive prompt; the
returned actions record which strategies ran. -/
def resolveDate (f : FileInput) (ocrFile : String) : List FsAction × Option String :=
  match extract_date_from_filename (basenameOf f.path) with
  | some s => ([], some s)
  | none =>
    match scanLines (pySplitlines f.pdftotextOut) with
    | some s => ([FsAction.runPdftotext ocrFile], some s)
    | none =>
      let r := interactiveLoop f.path f.ctimeStamp f.userInputs
      (FsAction.runPdftotext ocrFile :: r.1, r.2)

/-- Outcome of processing one file: the actions performed, the error
that aborted it if any, the updated existing-file and directory sets,
the resolved stamp and the chosen destination. -/
structure ProcOut where
  actions : List FsAction
  err : Option RunError
  fs : List String
  dirs : List String
  stamp : Option String
  dest : Option String

/-- One iteration of the process_files loop: run OCR into the scratch
directory (aborting the run on failure), resolve the date stamp,
compute the datetree folder and collision-free destination, create the
folder (even in dry-run mode), and move the OCR copy and delete the
source unless in dry-run mode. -/
def processOne (dryRun : Bool) (destDir tmpDir : String) (fs dirs : List String)
    (f : FileInput) : ProcOut :=
  let base := basenameOf f.path
  let ocrFile := joinPath tmpDir base
  if f.ocrOk then
    match resolveDate f ocrFile with
    | (acts, some stamp) =>
      let destFolder := destFolderOf destDir stamp
      let destFile := resolveDestFile fs destFolder (splitextStem base) base
      let dirs1 := if dirs.contains destFolder then dirs else destFolder :: dirs
      if dryRun then
        { actions := FsAction.runOcr f.path ocrFile :: acts ++ [FsAction.mkdirs destFolder],
          err := none, fs := fs, dirs := dirs1,
          stamp := some stamp, dest := some destFile }
      else
        { actions := FsAction.runOcr f.path ocrFile :: acts ++
            [FsAction.mkdirs destFolder, FsAction.move ocrFile destFile,
             FsAction.removeFile f.path],
          err := none, fs := destFile :: fs, dirs := dirs1,
          stamp := some stamp, dest := some destFile }
    | (acts, none) =>
      { actions := FsAction.runOcr f.path ocrFile :: acts,
        err := some (RunError.inputEof f.path), fs := fs, dirs := dirs,
        stamp := none, dest := none }
  else
    { actions := [FsAction.runOcr f.path ocrFile],
      err := some (RunError.ocrFailed f.path), fs := fs, dirs := dirs,
      stamp := none, dest := none }

/-- Aggregate outcome of a run: all actions in order, the first error
if one aborted the run, the final existing-file and directory sets, and
the stamps that reached the placement engine with their files. -/
structure RunOut where
  actions : List FsAction
  err : Option RunError
  fs : List String
  dirs : List String
  stamps : List (String × String)

/-- The process_files loop over the enumerated files, stopping at the
first aborting error. -/
def processFilesCore (dryRun : Bool) (destDir tmpDir : String) :
    List FileInput → List String → List String → RunOut
  | [], fs, dirs => { actions := [], err := none, fs := fs, dirs := dirs, stamps := [] }
  | f :: rest, fs, dirs =>
    let o := processOne dryRun destDir tmpDir fs dirs f
    match o.err with
    | some e =>
      { actions := o.actions, err := some e, fs := o.fs, dirs := o.dirs, stamps := [] }
    | none =>
      let r := processFilesCore dryRun destDir tmpDir rest o.fs o.dirs
      { actions := o.actions ++ r.actions, err := r.err, fs := r.fs, dirs := r.dirs,
        stamps := (match o.stamp with | some s => [(f.path, s)] | none => []) ++ r.stamps }

/-- process_files: the loop inside a try block whose finally clause
removes the scratch directory, so the rmtree action closes the trace on
every path, aborted or not. -/
def process_files (dryRun : Bool) (destDir tmpDir : String) (files : List FileInput)
    (fs dirs : List String) : RunOut :=
  let r := processFilesCore dryRun destDir tmpDir files fs dirs
  { r with actions := r.actions ++ [FsAction.rmtree tmpDir] }

/-- check_dependencies: walk the required-tool list in order and exit
with status 1 at the first tool the path lookup cannot resolve. -/
def check_dependencies (which : String → Bool) : Option Nat :=
  if !(which "ocrmypdf") then some 1
  else if !(which "pdftotext") then some 1
  else none

/-- Entry point after argument parsing: the dependency check runs
before any file is touched, so a missing tool yields exit status 1 with
an empty trace; otherwise the run executes, an aborting error
surfacing as the unhandled-exception exit status 1. -/
def mainRun (which : String → Bool) (dryRun : Bool) (destDir tmpDir : String)
    (files : List FileInput) (fs dirs : List String) : Nat × RunOut :=
  match check_dependencies which with
  | some code =>
    (code, { actions := [], err := none, fs := fs, dirs := dirs, stamps := [] })
  | none =>
    let r := process_files dryRun destDir tmpDir files fs dirs
    (if r.err.isSome then 1 else 0, r)

/-- An eight-character all-digit date stamp: the invariant the
specification asserts for stamps reaching the placement engine. -/
def is8DigitStamp (s : String) : Bool :=
  decide (s.length = 8) && s.data.all isDigitChar

/-- The decimal printer ignores its fuel as long as the fuel exceeds
the number. -/
theorem natToDigitsAux_irrel (n : Nat) :
    ∀ f1 f2, n < f1 → n < f2 → natToDigitsAux f1 n = natToDigitsAux f2 n := by
  induction n using Nat.strong_induction_on with
  | _ n ih =>
    intro f1 f2 h1 h2
    obtain ⟨g1, rfl⟩ : ∃ k, f1 = k + 1 := ⟨f1 - 1, by omega⟩
    obtain ⟨g2, rfl⟩ : ∃ k, f2 = k + 1 := ⟨f2 - 1, by omega⟩
    by_cases h : n < 10
    · simp [natToDigitsAux, h]
    · have hd : n / 10 < n := Nat.div_lt_self (by omega) (by omega)
      simp only [natToDigitsAux, if_neg h]
      rw [ih (n / 10) hd g1 g2 (by omega) (by omega)]

/-- Digits of a one-digit number. -/
theorem natToDigits_lt10 (n : Nat) (h : n < 10) : natToDigits n = [digitChar n] := by
  simp [natToDigits, natToDigitsAux, h]

/-- Unfolding step of the decimal printer for numbers of at least two
digits. -/
theorem natToDigits_ge10 (n : Nat) (h : 10 ≤ n) :
    natToDigits n = natToDigits (n / 10) ++ [digitChar (n % 10)] := by
  have hd : n / 10 < n := Nat.div_lt_self (by omega) (by omega)
  show natToDigitsAux (n + 1) n = _
  simp only [natToDigitsAux, if_neg (by omega : ¬ n < 10)]
  rw [natToDigitsAux_irrel (n / 10) n (n / 10 + 1) (by omega) (by omega)]
  rfl

/-- Digit characters are digits. -/
theorem isDigitChar_digitChar (k : Nat) (h : k < 10) : isDigitChar (digitChar k) = true := by
  interval_cases k <;> decide

/-- The decimal printer emits only digit characters. -/
theorem natToDigits_all (n : Nat) : (natToDigits n).all isDigitChar = true := by
  induction n using Nat.strong_induction_on with
  | _ n ih =>
    by_cases h : n < 10
    · rw [natToDigits_lt10 n h]
      simp [isDigitChar_digitChar n h]
    · have hd : n / 10 < n := Nat.div_lt_self (by omega) (by omega)
      rw [natToDigits_ge10 n (by omega)]
      simp [List.all_append, ih (n / 10) hd,
        isDigitChar_digitChar (n % 10) (Nat.mod_lt _ (by omega))]

/-- A number below ten prints as one character. -/
theorem natToDigits_len1 (n : Nat) (h : n < 10) : (natToDigits n).length = 1 := by
  rw [natToDigits_lt10 n h]
  rfl

/-- A four-digit number prints as four characters. -/
theorem natToDigits_len4 (n : Nat) (h1 : 1000 ≤ n) (h2 : n ≤ 9999) :
    (natToDigits n).length = 4 := by
  have e1 := natToDigits_ge10 n (by omega)
  have e2 := natToDigits_ge10 (n / 10) (by omega)
  have e3 := natToDigits_ge10 (n / 10 / 10) (by omega)
  have e4 := natToDigits_len1 (n / 10 / 10 / 10) (by omega)
  rw [e1, e2, e3]
  simp only [List.length_append, List.length_cons, List.length_nil, e4]

/-- A two-digit field prints as two characters. -/
theorem pad2_len (n : Nat) (h : n ≤ 99) : (pad2 n).length = 2 := by
  unfold pad2
  by_cases h1 : n < 10
  · simp [h1, natToDigits_len1 n h1]
  · rw [if_neg h1, natToDigits_ge10 n (by omega)]
    simp [natToDigits_len1 (n / 10) (by omega)]

/-- A two-digit field holds only digit characters. -/
theorem pad2_all (n : Nat) : (pad2 n).all isDigitChar = true := by
  unfold pad2
  by_cases h1 : n < 10
  · simp [h1, natToDigits_all]
    decide
  · simp [h1, natToDigits_all]

/-- Every character of a formatted stamp is a digit. -/
theorem formatStamp_digits (v : DateVals) : (formatStamp v).data.all isDigitChar = true := by
  simp [formatStamp, List.all_append, natToDigits_all, pad2_all]

/-- A formatted stamp with a four-digit year and two-digit month and
day fields is eight characters long. -/
theorem formatStamp_len8 (v : DateVals) (h1 : 1000 ≤ v.year) (h2 : v.year ≤ 9999)
    (hm : v.month ≤ 99) (hd : v.day ≤ 99) : (formatStamp v).length = 8 := by
  have : (formatStamp v).length = (natToDigits v.year ++ pad2 v.month ++ pad2 v.day).length := rfl
  rw [this]
  simp only [List.length_append, natToDigits_len4 v.year h1 h2, pad2_len v.month hm,
    pad2_len v.day hd]

/-- Months never exceed 31 days. -/
theorem daysInMonth_le_31 (y m : Nat) : daysInMonth y m ≤ 31 := by
  unfold daysInMonth
  by_cases h2 : (m == 2) = true
  · simp only [h2, if_true]
    by_cases hl : isLeapYear y = true <;> simp [hl]
  · by_cases h4 : (m == 4 || m == 6 || m == 9 || m == 11) = true <;>
      simp [h2, h4]

/-- Bounds enforced by the datetime constructor validation. -/
theorem validDate_bounds (v : DateVals) (h : validDate v = true) :
    1 ≤ v.year ∧ v.year ≤ 9999 ∧ 1 ≤ v.month ∧ v.month ≤ 12 ∧ 1 ≤ v.day ∧ v.day ≤ 31 := by
  have hd := daysInMonth_le_31 v.year v.month
  simp only [validDate, Bool.and_eq_true, decide_eq_true_eq] at h
  omega

/-- A successful single-format parse passed the datetime validation. -/
theorem strptimeFormat_valid (toks : List Tok) (cs : List Char) (v : DateVals)
    (h : strptimeFormat toks cs = some v) : validDate v = true := by
  unfold strptimeFormat at h
  cases hm : matchToks toks cs with
  | none => rw [hm] at h; exact absurd h (by simp)
  | some w =>
    rw [hm] at h
    dsimp only at h
    by_cases hv : validDate w = true
    · rw [if_pos hv] at h
      cases h
      exact hv
    · rw [if_neg hv] at h
      exact absurd h (by simp)

/-- Formats that fail contribute nothing to the parse loop. -/
theorem firstParse_append (pre rest : List (List Tok)) (cs : List Char)
    (h : ∀ g ∈ pre, strptimeFormat g cs = none) :
    firstParse (pre ++ rest) cs = firstParse rest cs := by
  induction pre with
  | nil => rfl
  | cons g pre ih =>
    have hg : strptimeFormat g cs = none := h g (by simp)
    simp only [List.cons_append, firstParse, hg]
    exact ih (fun x hx => h x (by simp [hx]))

/-- A successful parse loop result comes from some format of the list,
formatted by strftime. -/
theorem firstParse_some (l : List (List Tok)) (cs : List Char) (s : String)
    (h : firstParse l cs = some s) :
    ∃ f v, f ∈ l ∧ strptimeFormat f cs = some v ∧ s = formatStamp v := by
  induction l with
  | nil => exact absurd h (by simp [firstParse])
  | cons g l ih =>
    unfold firstParse at h
    cases hg : strptimeFormat g cs with
    | some v =>
      rw [hg] at h
      refine ⟨g, v, by simp, hg, ?_⟩
      cases h
      rfl
    | none =>
      rw [hg] at h
      obtain ⟨f, v, hf, hv, hs⟩ := ih h
      exact ⟨f, v, by simp [hf], hv, hs⟩

/-- Lines that fail to parse contribute nothing to the OCR scan. -/
theorem scanLines_append (pre rest : List String)
    (h : ∀ x ∈ pre, parse_date x = none) :
    scanLines (pre ++ rest) = scanLines rest := by
  induction pre with
  | nil => rfl
  | cons l pre ih =>
    have hl : parse_date l = none := h l (by simp)
    simp only [List.cons_append, scanLines, hl]
    exact ih (fun x hx => h x (by simp [hx]))

/-- The collision loop lands on the candidate indexed by the first free
counter: if the candidates below k+n are all taken and the one at k+n
is free, the loop starting at k returns the k+n candidate, for any fuel
above n. -/
theorem destLoop_finds (fs : List String) (folder stem base : String) :
    ∀ n fuel k, n < fuel →
      (∀ j, j < n → pyExists fs (candidateName folder stem base (k + j)) = true) →
      pyExists fs (candidateName folder stem base (k + n)) = false →
      destLoop fs folder stem base fuel k = candidateName folder stem base (k + n) := by
  intro n
  induction n with
  | zero =>
    intro fuel k hf hocc hfree
    obtain ⟨g, rfl⟩ : ∃ m, fuel = m + 1 := ⟨fuel - 1, by omega⟩
    rw [Nat.add_zero] at hfree
    simp [destLoop, hfree]
  | succ n ih =>
    intro fuel k hf hocc hfree
    obtain ⟨g, rfl⟩ : ∃ m, fuel = m + 1 := ⟨fuel - 1, by omega⟩
    have h0 : pyExists fs (candidateName folder stem base k) = true := by
      have := hocc 0 (by omega)
      rwa [Nat.add_zero] at this
    simp only [destLoop, h0, if_true]
    have hocc2 : ∀ j, j < n → pyExists fs (candidateName folder stem base (k + 1 + j)) = true := by
      intro j hj
      have := hocc (j + 1) (by omega)
      rwa [show k + (j + 1) = k + 1 + j by omega] at this
    have hfree2 : pyExists fs (candidateName folder stem base (k + 1 + n)) = false := by
      rwa [show k + (n + 1) = k + 1 + n by omega] at hfree
    have := ih g (k + 1) (by omega) hocc2 hfree2
    rwa [show k + 1 + n = k + (n + 1) by omega] at this

/-- The interactive loop always issues a prompt. -/
theorem interactiveLoop_prompt_mem (path sugg : String) (ins : List String) :
    FsAction.prompt path ∈ (interactiveLoop path sugg ins).1 := by
  cases ins with
  | nil => simp [interactiveLoop]
  | cons i rest =>
    simp only [interactiveLoop]
    by_cases h : (pyLower i == "o") = true
    · simp [h]
    · simp [h]

/-- Every action of the interactive loop is a prompt or a file open. -/
theorem interactiveLoop_actions (path sugg : String) (ins : List String) :
    ∀ a ∈ (interactiveLoop path sugg ins).1,
      a = FsAction.prompt path ∨ a = FsAction.openCmd path := by
  induction ins with
  | nil =>
    intro a ha
    simp only [interactiveLoop, List.mem_singleton] at ha
    exact Or.inl ha
  | cons i rest ih =>
    intro a ha
    simp only [interactiveLoop] at ha
    by_cases h : (pyLower i == "o") = true
    · rw [if_pos h] at ha
      simp only [List.mem_cons] at ha
      rcases ha with h1 | h1 | h1
      · exact Or.inl h1
      · exact Or.inr h1
      · exact ih a h1
    · rw [if_neg h] at ha
      simp only [List.mem_singleton] at ha
      exact Or.inl ha

/-- Date resolution when a filename pattern hits: no pdftotext run, no
prompt. -/
theorem resolveDate_of_extract (f : FileInput) (ocrFile : String) (s : String)
    (h : extract_date_from_filename (basenameOf f.path) = some s) :
    resolveDate f ocrFile = ([], some s) := by
  unfold resolveDate
  rw [h]

/-- Date resolution from the OCR text scan. -/
theorem resolveDate_of_scan (f : FileInput) (ocrFile : String) (s : String)
    (h1 : extract_date_from_filename (basenameOf f.path) = none)
    (h2 : scanLines (pySplitlines f.pdftotextOut) = some s) :
    resolveDate f ocrFile = ([FsAction.runPdftotext ocrFile], some s) := by
  unfold resolveDate
  rw [h1, h2]

/-- Date resolution from the interactive prompt. -/
theorem resolveDate_of_interactive (f : FileInput) (ocrFile : String)
    (h1 : extract_date_from_filename (basenameOf f.path) = none)
    (h2 : scanLines (pySplitlines f.pdftotextOut) = none) :
    resolveDate f ocrFile =
      (FsAction.runPdftotext ocrFile :: (interactiveLoop f.path f.ctimeStamp f.userInputs).1,
       (interactiveLoop f.path f.ctimeStamp f.userInputs).2) := by
  unfold resolveDate
  rw [h1, h2]

/-- Every action of a resolution is the pdftotext run, a prompt or a
file open. -/
theorem resolveDate_actions (f : FileInput) (ocrFile : String) :
    ∀ a ∈ (resolveDate f ocrFile).1,
      a = FsAction.runPdftotext ocrFile ∨ a = FsAction.prompt f.path ∨
      a = FsAction.openCmd f.path := by
  intro a ha
  unfold resolveDate at ha
  cases h1 : extract_date_from_filename (basenameOf f.path) with
  | some s => rw [h1] at ha; simp at ha
  | none =>
    rw [h1] at ha
    cases h2 : scanLines (pySplitlines f.pdftotextOut) with
    | some s =>
      rw [h2] at ha
      simp only [List.mem_singleton] at ha
      exact Or.inl ha
    | none =>
      rw [h2] at ha
      simp only [List.mem_cons] at ha
      rcases ha with h | h
      · exact Or.inl h
      · exact Or.inr (interactiveLoop_actions f.path f.ctimeStamp f.userInputs a h)

/-- Shape of a successfully processed file: no error, the resolved
stamp, the destination chosen by the placement engine, and the action
trace with the mutations present exactly when not in dry-run mode. -/
theorem processOne_resolved (dryRun : Bool) (destDir tmpDir : String)
    (fs dirs : List String) (f : FileInput) (acts : List FsAction) (stamp : String)
    (hocr : f.ocrOk = true)
    (hrd : resolveDate f (joinPath tmpDir (basenameOf f.path)) = (acts, some stamp)) :
    (processOne dryRun destDir tmpDir fs dirs f).err = none ∧
    (processOne dryRun destDir tmpDir fs dirs f).stamp = some stamp ∧
    (processOne dryRun destDir tmpDir fs dirs f).dest =
      some (resolveDestFile fs (destFolderOf destDir stamp)
        (splitextStem (basenameOf f.path)) (basenameOf f.path)) ∧
    (processOne dryRun destDir tmpDir fs dirs f).actions =
      FsAction.runOcr f.path (joinPath tmpDir (basenameOf f.path)) :: acts ++
        (if dryRun then [FsAction.mkdirs (destFolderOf destDir stamp)]
         else [FsAction.mkdirs (destFolderOf destDir stamp),
               FsAction.move (joinPath tmpDir (basenameOf f.path))
                 (resolveDestFile fs (destFolderOf destDir stamp)
                   (splitextStem (basenameOf f.path)) (basenameOf f.path)),
               FsAction.removeFile f.path]) := by
  cases dryRun with
  | false =>
    unfold processOne
    simp only [hocr, if_true, hrd, if_false]
    refine ⟨?_, ?_, ?_, ?_⟩ <;> trivial
  | true =>
    unfold processOne
    simp only [hocr, if_true, hrd]
    refine ⟨?_, ?_, ?_, ?_⟩ <;> trivial

/-- Shape of a file whose OCR invocation fails: the error is raised
right after the OCR attempt and nothing else happens to the file. -/
theorem processOne_ocrFail (dryRun : Bool) (destDir tmpDir : String)
    (fs dirs : List String) (f : FileInput) (hocr : f.ocrOk = false) :
    processOne dryRun destDir tmpDir fs dirs f =
      { actions := [FsAction.runOcr f.path (joinPath tmpDir (basenameOf f.path))],
        err := some (RunError.ocrFailed f.path), fs := fs, dirs := dirs,
        stamp := none, dest := none } := by
  unfold processOne
  simp [hocr]

/-- In dry-run mode one file mutates nothing: no move, no deletion, no
recorded destination file. -/
theorem processOne_dry_frame (destDir tmpDir : String) (fs dirs : List String)
    (f : FileInput) :
    (∀ a b, FsAction.move a b ∉ (processOne true destDir tmpDir fs dirs f).actions) ∧
    (∀ p, FsAction.removeFile p ∉ (processOne true destDir tmpDir fs dirs f).actions) ∧
    (processOne true destDir tmpDir fs dirs f).fs = fs := by
  by_cases hocr : f.ocrOk = true
  · rcases hrd : resolveDate f (joinPath tmpDir (basenameOf f.path)) with ⟨acts, opt⟩
    cases opt with
    | some stamp =>
      obtain ⟨-, -, -, hacts⟩ :=
        processOne_resolved true destDir tmpDir fs dirs f acts stamp hocr hrd
      rw [if_pos rfl] at hacts
      have hmem : ∀ a ∈ (processOne true destDir tmpDir fs dirs f).actions,
          a = FsAction.runOcr f.path (joinPath tmpDir (basenameOf f.path)) ∨
          a ∈ acts ∨ a = FsAction.mkdirs (destFolderOf destDir stamp) := by
        intro a ha
        rw [hacts] at ha
        simp only [List.cons_append, List.mem_cons, List.mem_append,
          List.mem_singleton] at ha
        tauto
      refine ⟨?_, ?_, ?_⟩
      · intro a b hmove
        rcases hmem _ hmove with h | h | h
        · exact absurd h (by simp)
        · have := resolveDate_actions f (joinPath tmpDir (basenameOf f.path)) _ (by rw [hrd]; exact h)
          rcases this with h1 | h1 | h1 <;> exact absurd h1 (by simp)
        · exact absurd h (by simp)
      · intro p hrem
        rcases hmem _ hrem with h | h | h
        · exact absurd h (by simp)
        · have := resolveDate_actions f (joinPath tmpDir (basenameOf f.path)) _ (by rw [hrd]; exact h)
          rcases this with h1 | h1 | h1 <;> exact absurd h1 (by simp)
        · exact absurd h (by simp)
      · unfold processOne
        simp only [hocr, if_true, hrd, if_pos rfl]
    | none =>
      have hshape : processOne true destDir tmpDir fs dirs f =
          { actions := FsAction.runOcr f.path (joinPath tmpDir (basenameOf f.path)) :: acts,
            err := some (RunError.inputEof f.path), fs := fs, dirs := dirs,
            stamp := none, dest := none } := by
        unfold processOne
        simp only [hocr, if_true, hrd]
      rw [hshape]
      refine ⟨?_, ?_, rfl⟩
      · intro a b hmove
        simp only [List.mem_cons] at hmove
        rcases hmove with h | h
        · exact absurd h (by simp)
        · have := resolveDate_actions f (joinPath tmpDir (basenameOf f.path)) _ (by rw [hrd]; exact h)
          rcases this with h1 | h1 | h1 <;> exact absurd h1 (by simp)
      · intro p hrem
        simp only [List.mem_cons] at hrem
        rcases hrem with h | h
        · exact absurd h (by simp)
        · have := resolveDate_actions f (joinPath tmpDir (basenameOf f.path)) _ (by rw [hrd]; exact h)
          rcases this with h1 | h1 | h1 <;> exact absurd h1 (by simp)
  · have hocr2 : f.ocrOk = false := by revert hocr; cases f.ocrOk <;> simp
    rw [processOne_ocrFail true destDir tmpDir fs dirs f hocr2]
    refine ⟨?_, ?_, rfl⟩
    · intro a b hmove
      simp at hmove
    · intro p hrem
      simp at hrem

/-- In dry-run mode a whole run mutates nothing: no move, no deletion,
and the set of existing destination files is unchanged. -/
theorem core_dry_frame (destDir tmpDir : String) :
    ∀ (files : List FileInput) (fs dirs : List String),
      (∀ a b, FsAction.move a b ∉ (processFilesCore true destDir tmpDir files fs dirs).actions) ∧
      (∀ p, FsAction.removeFile p ∉ (processFilesCore true destDir tmpDir files fs dirs).actions) ∧
      (processFilesCore true destDir tmpDir files fs dirs).fs = fs := by
  intro files
  induction files with
  | nil =>
    intro fs dirs
    refine ⟨?_, ?_, rfl⟩ <;> intros <;> simp [processFilesCore]
  | cons f rest ih =>
    intro fs dirs
    obtain ⟨hm1, hr1, hfs1⟩ := processOne_dry_frame destDir tmpDir fs dirs f
    simp only [processFilesCore]
    cases he : (processOne true destDir tmpDir fs dirs f).err with
    | some e =>
      refine ⟨?_, ?_, ?_⟩
      · intro a b; exact hm1 a b
      · intro p; exact hr1 p
      · -- the aborted run reports the fs of the failed processOne, which kept fs
        simpa using hfs1
    | none =>
      obtain ⟨hm2, hr2, hfs2⟩ :=
        ih (processOne true destDir tmpDir fs dirs f).fs (processOne true destDir tmpDir fs dirs f).dirs
      refine ⟨?_, ?_, ?_⟩
      · intro a b hmem
        simp only [List.mem_append] at hmem
        rcases hmem with h | h
        · exact hm1 a b h
        · exact hm2 a b h
      · intro p hmem
        simp only [List.mem_append] at hmem
        rcases hmem with h | h
        · exact hr1 p h
        · exact hr2 p h
      · rw [hfs2, hfs1]

/-- A failing OCR invocation aborts the whole loop: the trace is the
prefix of successfully processed files followed by the failed OCR
attempt, and nothing of the failing or later files is touched. -/
theorem core_abort (dryRun : Bool) (destDir tmpDir : String) (f : FileInput)
    (post : List FileInput) (hf : f.ocrOk = false) :
    ∀ (pre : List FileInput) (fs dirs : List String),
      (processFilesCore dryRun destDir tmpDir pre fs dirs).err = none →
      (processFilesCore dryRun destDir tmpDir (pre ++ f :: post) fs dirs).err =
        some (RunError.ocrFailed f.path) ∧
      (processFilesCore dryRun destDir tmpDir (pre ++ f :: post) fs dirs).actions =
        (processFilesCore dryRun destDir tmpDir pre fs dirs).actions ++
          [FsAction.runOcr f.path (joinPath tmpDir (basenameOf f.path))] := by
  intro pre
  induction pre with
  | nil =>
    intro fs dirs _
    simp only [List.nil_append, processFilesCore,
      processOne_ocrFail dryRun destDir tmpDir fs dirs f hf]
    refine ⟨?_, ?_⟩ <;> trivial
  | cons p pre ih =>
    intro fs dirs hpre
    simp only [List.cons_append, processFilesCore] at hpre ⊢
    cases he : (processOne dryRun destDir tmpDir fs dirs p).err with
    | some e =>
      simp only [he] at hpre
      simp at hpre
    | none =>
      simp only [he, List.append_eq] at hpre ⊢
      obtain ⟨h1, h2⟩ := ih (processOne dryRun destDir tmpDir fs dirs p).fs
        (processOne dryRun destDir tmpDir fs dirs p).dirs hpre
      exact ⟨h1, by rw [h2, List.append_assoc]⟩

/-- The anchor adjustment either leaves the name alone or removes
exactly one trailing newline. -/
theorem stripTrailingNewline_cases (cs : List Char) :
    stripTrailingNewline cs = cs ∨ cs = stripTrailingNewline cs ++ ['\n'] := by
  cases hl : cs.getLast? with
  | none =>
    left
    simp [stripTrailingNewline, hl]
  | some c =>
    by_cases hc : (c == '\n') = true
    · right
      have hs : stripTrailingNewline cs = cs.dropLast := by
        simp [stripTrailingNewline, hl, hc]
      rw [hs]
      obtain ⟨l1, rfl⟩ := List.getLast?_eq_some_iff.mp hl
      rw [List.dropLast_concat]
      have hcn : c = '\n' := by simpa using hc
      rw [hcn]
    · left
      simp [stripTrailingNewline, hl, hc]

/-- The anchor adjustment does not disturb a prefix it keeps. -/
theorem stripTrailingNewline_take (cs : List Char) (k : Nat)
    (hk : k ≤ (stripTrailingNewline cs).length) :
    (stripTrailingNewline cs).take k = cs.take k := by
  rcases stripTrailingNewline_cases cs with hc | hc
  · rw [hc]
  · conv_rhs => rw [hc]
    rw [List.take_append_eq_append_take]
    have : k - (stripTrailingNewline cs).length = 0 := by omega
    rw [this]
    simp

/-- Components of a first-pattern match: the name (anchor-adjusted) has
a ninth character, starts with eight digits and ends in ".pdf". -/
theorem matchesPrefixPattern_parts (name : String) (h : matchesPrefixPattern name = true) :
    8 < (stripTrailingNewline name.data).length ∧
    ((stripTrailingNewline name.data).take 8).all isDigitChar = true ∧
    endsWithChars (stripTrailingNewline name.data) ".pdf".data = true := by
  simp only [matchesPrefixPattern, pdfTail, endsWithChars, Bool.and_eq_true, Bool.or_eq_true,
    decide_eq_true_eq, beq_iff_eq] at h
  obtain ⟨⟨⟨hlen8, hdig⟩, hsep⟩, ⟨hge, hdropEq⟩, -⟩ := h
  have h9 : 8 < (stripTrailingNewline name.data).length := by
    rcases hsep with hs | hs <;> exact (List.getElem?_eq_some.mp hs).1
  have hpdf4 : (".pdf".data).length = 4 := by decide
  have hlen13 : 13 ≤ (stripTrailingNewline name.data).length := by
    rw [hpdf4, List.length_drop] at hge
    omega
  refine ⟨h9, hdig, ?_⟩
  simp only [endsWithChars, Bool.and_eq_true, decide_eq_true_eq, beq_iff_eq, hpdf4]
  refine ⟨by omega, ?_⟩
  rw [List.drop_drop] at hdropEq
  rw [hpdf4, List.length_drop] at hdropEq
  have heq : 9 + ((stripTrailingNewline name.data).length - 9 - 4) =
      (stripTrailingNewline name.data).length - 4 := by omega
  rwa [heq] at hdropEq

/-- A first-pattern match starts with an eight-digit stamp, read off
the original name. -/
theorem prefix_stamp (name : String) (h : matchesPrefixPattern name = true) :
    name.data.take 8 = (stripTrailingNewline name.data).take 8 ∧
    is8DigitStamp (String.mk (name.data.take 8)) = true := by
  obtain ⟨h9, hdig, -⟩ := matchesPrefixPattern_parts name h
  have htake : (stripTrailingNewline name.data).take 8 = name.data.take 8 :=
    stripTrailingNewline_take name.data 8 (by omega)
  refine ⟨htake.symm, ?_⟩
  simp only [is8DigitStamp, Bool.and_eq_true, decide_eq_true_eq]
  constructor
  · show (name.data.take 8).length = 8
    rw [← htake, List.length_take]
    omega
  · rw [← htake]
    exact hdig

/-- A name matching the first pattern carries the literal lowercase
".pdf", as a suffix or just before the single trailing newline the
anchor tolerates. -/
theorem matchesPrefixPattern_pdf_suffix (name : String)
    (h : matchesPrefixPattern name = true) :
    endsWithChars name.data ".pdf".data = true ∨
    endsWithChars name.data ".pdf\n".data = true := by
  obtain ⟨-, -, hsuf⟩ := matchesPrefixPattern_parts name h
  rcases stripTrailingNewline_cases name.data with hc | hc
  · exact Or.inl (by rwa [hc] at hsuf)
  · right
    simp only [endsWithChars, Bool.and_eq_true, decide_eq_true_eq, beq_iff_eq] at hsuf ⊢
    obtain ⟨h1, h2⟩ := hsuf
    have hpdf4 : (".pdf".data).length = 4 := by decide
    have hpdf5 : (".pdf\n".data).length = 5 := by decide
    rw [hpdf4] at h1 h2
    constructor
    · rw [hc, hpdf5]
      simp only [List.length_append, List.length_cons, List.length_nil]
      omega
    · conv_lhs => rw [hc]
      rw [hpdf5, List.drop_append_eq_append_drop]
      have e1 : (stripTrailingNewline name.data ++ ['\n']).length =
          (stripTrailingNewline name.data).length + 1 := by simp
      rw [e1]
      have e2 : (stripTrailingNewline name.data).length + 1 - 5 =
          (stripTrailingNewline name.data).length - 4 := by omega
      have e3 : (stripTrailingNewline name.data).length - 4 -
          (stripTrailingNewline name.data).length = 0 := by omega
      rw [e2, e3, h2]
      decide

/-- A second-pattern match requires the literal lowercase ".pdf" at the
end of the (anchor-adjusted) name. -/
theorem matchDescriptive_suffix (body : List Char)
    (h : (matchDescriptive body).isSome = true) :
    endsWithChars body ".pdf".data = true := by
  by_cases he : endsWithChars body ".pdf".data = true
  · exact he
  · exfalso
    have hfalse : endsWithChars body ".pdf".data = false := by
      revert he
      cases endsWithChars body ".pdf".data <;> simp
    unfold matchDescriptive at h
    rw [hfalse] at h
    simp at h

/-- A name matching the second pattern carries the literal lowercase
".pdf", as a suffix or just before the single trailing newline the
anchor tolerates. -/
theorem matchesDescriptivePattern_pdf_suffix (name : String)
    (h : matchesDescriptivePattern name = true) :
    endsWithChars name.data ".pdf".data = true ∨
    endsWithChars name.data ".pdf\n".data = true := by
  have hsuf : endsWithChars (stripTrailingNewline name.data) ".pdf".data = true :=
    matchDescriptive_suffix (stripTrailingNewline name.data) h
  rcases stripTrailingNewline_cases name.data with hc | hc
  · exact Or.inl (by rwa [hc] at hsuf)
  · right
    simp only [endsWithChars, Bool.and_eq_true, decide_eq_true_eq, beq_iff_eq] at hsuf ⊢
    obtain ⟨h1, h2⟩ := hsuf
    have hpdf4 : (".pdf".data).length = 4 := by decide
    have hpdf5 : (".pdf\n".data).length = 5 := by decide
    rw [hpdf4] at h1 h2
    constructor
    · rw [hc, hpdf5]
      simp only [List.length_append, List.length_cons, List.length_nil]
      omega
    · conv_lhs => rw [hc]
      rw [hpdf5, List.drop_append_eq_append_drop]
      have e1 : (stripTrailingNewline name.data ++ ['\n']).length =
          (stripTrailingNewline name.data).length + 1 := by simp
      rw [e1]
      have e2 : (stripTrailingNewline name.data).length + 1 - 5 =
          (stripTrailingNewline name.data).length - 4 := by omega
      have e3 : (stripTrailingNewline name.data).length - 4 -
          (stripTrailingNewline name.data).length = 0 := by omega
      rw [e2, e3, h2]
      decide

/-- C1: for every filename whose basename matches the pattern of eight
digits, an underscore or dash, and a ".pdf" ending, the date resolver
returns the leading 8 digits of the basename verbatim — no calendar
validation, as the witness with stamp 99999999 shows — and neither the
OCR-text scan nor the interactive prompt is consulted for that file. -/
theorem c1_filename_prefix_short_circuit (dryRun : Bool) (destDir tmpDir : String)
    (fs dirs : List String) (f : FileInput)
    (h : matchesPrefixPattern (basenameOf f.path) = true) (hocr : f.ocrOk = true) :
    extract_date_from_filename (basenameOf f.path) =
      some (String.mk ((basenameOf f.path).data.take 8)) ∧
    (processOne dryRun destDir tmpDir fs dirs f).stamp =
      some (String.mk ((basenameOf f.path).data.take 8)) ∧
    (∀ p, FsAction.runPdftotext p ∉ (processOne dryRun destDir tmpDir fs dirs f).actions) ∧
    (∀ p, FsAction.prompt p ∉ (processOne dryRun destDir tmpDir fs dirs f).actions) := by
  have hex : extract_date_from_filename (basenameOf f.path) =
      some (String.mk ((basenameOf f.path).data.take 8)) := by
    unfold extract_date_from_filename
    rw [if_pos h]
  have hrd : resolveDate f (joinPath tmpDir (basenameOf f.path)) =
      ([], some (String.mk ((basenameOf f.path).data.take 8))) :=
    resolveDate_of_extract f _ _ hex
  obtain ⟨herr, hstamp, hdest, hacts⟩ :=
    processOne_resolved dryRun destDir tmpDir fs dirs f [] _ hocr hrd
  refine ⟨hex, hstamp, ?_, ?_⟩
  · intro p hmem
    rw [hacts] at hmem
    cases dryRun <;> simp at hmem
  · intro p hmem
    rw [hacts] at hmem
    cases dryRun <;> simp at hmem

/-- Witness for C1: a concrete file whose leading digits are not a
calendar date still gets them as its stamp, with no pdftotext run and
no prompt. -/
theorem c1_witness :
    extract_date_from_filename (basenameOf "/scan/99999999_bill.pdf") = some "99999999" ∧
    (processOne false "/dest" "/tmp/t" [] []
      ⟨"/scan/99999999_bill.pdf", true, 0, "2023-01-01", "20220101", []⟩).stamp =
      some "99999999" := by
  obtain ⟨h1, h2, -, -⟩ := c1_filename_prefix_short_circuit false "/dest" "/tmp/t" [] []
    ⟨"/scan/99999999_bill.pdf", true, 0, "2023-01-01", "20220101", []⟩ (by decide) rfl
  exact ⟨h1.trans (by decide), h2.trans (by decide)⟩

/-- C2: parse_date tries exactly the ordered format list — the three
year-first numeric formats, the three day-first numeric formats, then
the full and abbreviated textual month forms — and the first format
that parses the stripped input wins; "May 17, 2024" parses to
"20240517", and "17/05/2024" parses to "20240517" under the DD/MM/YYYY
rule (the year-first slash format having failed on it). -/
theorem c2_format_order_first_wins :
    (∀ (line : String) (pre : List (List Tok)) (fmt : List Tok) (rest : List (List Tok))
        (v : DateVals),
        dateFormats = pre ++ fmt :: rest →
        (∀ g ∈ pre, strptimeFormat g (pyStrip line).data = none) →
        strptimeFormat fmt (pyStrip line).data = some v →
        parse_date line = some (formatStamp v)) ∧
    parse_date "May 17, 2024" = some "20240517" ∧
    parse_date "17/05/2024" = some "20240517" ∧
    strptimeFormat (fmtYmd '/') (pyStrip "17/05/2024").data = none ∧
    strptimeFormat (fmtDmy '/') (pyStrip "17/05/2024").data =
      some { year := 2024, month := 5, day := 17 } := by
  refine ⟨?_, by decide, by decide, by decide, by decide⟩
  intro line pre fmt rest v hdec hpre hfmt
  unfold parse_date
  rw [hdec, firstParse_append pre (fmt :: rest) _ hpre]
  unfold firstParse
  rw [hfmt]

/-- Witness for C2: the first-format-wins rule applied at "17/05/2024"
with the three year-first formats failing and the day-first slash
format succeeding. -/
theorem c2_witness :
    parse_date "17/05/2024" = some (formatStamp { year := 2024, month := 5, day := 17 }) :=
  c2_format_order_first_wins.1 "17/05/2024" [fmtYmd '/', fmtYmd '-', fmtYmd '.']
    (fmtDmy '/') [fmtDmy '-', fmtDmy '.', fmtMonthFullDY, fmtMonthAbbrDY]
    { year := 2024, month := 5, day := 17 } rfl (by decide) (by decide)

/-- C3 counterexample: the interactive prompt performs no validation,
so a user answer of "hello" reaches the placement engine as the
resolved stamp, which is not an 8-character numeric string. -/
theorem c3_counterexample :
    (process_files false "/dest" "/tmp/t"
      [⟨"/scan/notes.pdf", true, 0, "no date here", "20220101", ["hello"]⟩] [] []).stamps =
      [("/scan/notes.pdf", "hello")] ∧
    is8DigitStamp "hello" = false := by
  exact ⟨by decide, by decide⟩

/-- C3 amended: stamps produced by the filename-prefix pattern are
always exactly 8 numeric characters, and stamps produced by parse_date
(the descriptive filename and OCR strategies) are numeric, printed from
a validated date, and 8 characters whenever the parsed year is at
least 1000; the interactive prompt, however, accepts its answer
verbatim with no validation, so the 8-character invariant does not
extend to stamps it produces. -/
theorem c3_amended_stamp_shape :
    (∀ name : String, matchesPrefixPattern name = true →
        is8DigitStamp (String.mk (name.data.take 8)) = true) ∧
    (∀ (line s : String), parse_date line = some s →
        s.data.all isDigitChar = true ∧
        ∃ v : DateVals, s = formatStamp v ∧ validDate v = true ∧
          (1000 ≤ v.year → s.length = 8)) := by
  constructor
  · intro name h
    exact (prefix_stamp name h).2
  · intro line s h
    obtain ⟨f, v, hf, hv, hs⟩ := firstParse_some dateFormats (pyStrip line).data s h
    have hvalid := strptimeFormat_valid f (pyStrip line).data v hv
    obtain ⟨hy1, hy2, hm1, hm2, hd1, hd2⟩ := validDate_bounds v hvalid
    subst hs
    refine ⟨formatStamp_digits v, v, rfl, hvalid, ?_⟩
    intro hy
    exact formatStamp_len8 v hy hy2 (by omega) (by omega)

/-- Witness for the amended C3, at a concrete matching filename and a
concrete parsed line. -/
theorem c3_witness :
    is8DigitStamp (String.mk (("20240517_a.pdf").data.take 8)) = true ∧
    ("20240228".data.all isDigitChar = true ∧
      ∃ v : DateVals, ("20240228" : String) = formatStamp v ∧ validDate v = true ∧
        (1000 ≤ v.year → ("20240228" : String).length = 8)) :=
  ⟨c3_amended_stamp_shape.1 "20240517_a.pdf" (by decide),
   c3_amended_stamp_shape.2 "2024-02-28" "20240228" (by decide)⟩

/-- C4 counterexample: a concrete dry run still creates the
destination date folder — makedirs is not guarded by the dry-run flag —
so a filesystem mutation beyond what OCR produced in the scratch
directory does occur. -/
theorem c4_counterexample :
    (process_files true "/dest" "/tmp/t"
      [⟨"/scan/20240517_bill.pdf", true, 0, "", "20220101", []⟩] [] []).dirs =
      ["/dest/2024/05/17"] ∧
    FsAction.mkdirs "/dest/2024/05/17" ∈
      (process_files true "/dest" "/tmp/t"
        [⟨"/scan/20240517_bill.pdf", true, 0, "", "20220101", []⟩] [] []).actions := by
  exact ⟨by decide, by decide⟩

/-- C4 amended: in dry-run mode no source file is deleted and no OCR
copy is moved into the destination tree (no destination file comes
into existence), but the destination date folders are still created by
makedirs, a filesystem mutation dry-run mode does perform. -/
theorem c4_amended_dry_run_frame (destDir tmpDir : String) (files : List FileInput)
    (fs dirs : List String) :
    (∀ a b, FsAction.move a b ∉ (process_files true destDir tmpDir files fs dirs).actions) ∧
    (∀ p, FsAction.removeFile p ∉ (process_files true destDir tmpDir files fs dirs).actions) ∧
    (process_files true destDir tmpDir files fs dirs).fs = fs := by
  obtain ⟨h1, h2, h3⟩ := core_dry_frame destDir tmpDir files fs dirs
  unfold process_files
  refine ⟨?_, ?_, h3⟩
  · intro a b hmem
    simp only [List.mem_append, List.mem_singleton] at hmem
    rcases hmem with hm | hm
    · exact h1 a b hm
    · exact absurd hm (by simp)
  · intro p hmem
    simp only [List.mem_append, List.mem_singleton] at hmem
    rcases hmem with hm | hm
    · exact h2 p hm
    · exact absurd hm (by simp)

/-- Witness for the amended C4 at a concrete dry run. -/
theorem c4_witness :
    FsAction.move "/tmp/t/20240517_bill.pdf" "/dest/2024/05/17/20240517_bill.pdf" ∉
      (process_files true "/dest" "/tmp/t"
        [⟨"/scan/20240517_bill.pdf", true, 0, "", "20220101", ["x"]⟩] [] []).actions ∧
    (process_files true "/dest" "/tmp/t"
      [⟨"/scan/20240517_bill.pdf", true, 0, "", "20220101", ["x"]⟩] [] []).fs = [] :=
  ⟨(c4_amended_dry_run_frame "/dest" "/tmp/t"
      [⟨"/scan/20240517_bill.pdf", true, 0, "", "20220101", ["x"]⟩] [] []).1 _ _,
   (c4_amended_dry_run_frame "/dest" "/tmp/t"
      [⟨"/scan/20240517_bill.pdf", true, 0, "", "20220101", ["x"]⟩] [] []).2.2⟩

/-- C5: the destination of a resolved file is the datetree folder of
the stamp (character ranges 0-4, 4-6, 6-8 under the destination root)
joined with the basename; when that name exists a numeric suffix is
inserted before the ".pdf" extension, counting from 1 until the first
free name, with no upper bound on the counter. -/
theorem c5_placement_collisions :
    (∀ (dryRun : Bool) (destDir tmpDir : String) (fs dirs : List String) (f : FileInput)
        (acts : List FsAction) (stamp : String),
        f.ocrOk = true →
        resolveDate f (joinPath tmpDir (basenameOf f.path)) = (acts, some stamp) →
        (processOne dryRun destDir tmpDir fs dirs f).dest =
          some (resolveDestFile fs (destFolderOf destDir stamp)
            (splitextStem (basenameOf f.path)) (basenameOf f.path))) ∧
    (∀ (fs : List String) (folder stem base : String),
        pyExists fs (candidateName folder stem base 0) = false →
        resolveDestFile fs folder stem base = joinPath folder base) ∧
    (∀ (fs : List String) (folder stem base : String) (n : Nat),
        (∀ k, k ≤ n → pyExists fs (candidateName folder stem base k) = true) →
        pyExists fs (candidateName folder stem base (n + 1)) = false →
        n < fs.length →
        resolveDestFile fs folder stem base =
          joinPath folder (stem ++ "_" ++ String.mk (natToDigits (n + 1)) ++ ".pdf")) := by
  refine ⟨?_, ?_, ?_⟩
  · intro dryRun destDir tmpDir fs dirs f acts stamp hocr hrd
    exact (processOne_resolved dryRun destDir tmpDir fs dirs f acts stamp hocr hrd).2.2.1
  · intro fs folder stem base hfree
    have h := destLoop_finds fs folder stem base 0 (fs.length + 1) 0 (by omega)
      (fun j hj => absurd hj (by omega)) (by simpa using hfree)
    unfold resolveDestFile
    rw [h]
    rfl
  · intro fs folder stem base n hocc hfree hlen
    have h := destLoop_finds fs folder stem base (n + 1) (fs.length + 1) 0 (by omega)
      (fun j hj => by simpa using hocc j (by omega)) (by simpa using hfree)
    unfold resolveDestFile
    rw [h, Nat.zero_add]
    rfl

/-- Witness for C5: with foo.pdf and foo_1.pdf already present, the
third file of the same date and basename is placed as foo_2.pdf. -/
theorem c5_witness :
    resolveDestFile ["/dest/2024/05/17/foo.pdf", "/dest/2024/05/17/foo_1.pdf"]
      "/dest/2024/05/17" "foo" "foo.pdf" = "/dest/2024/05/17/foo_2.pdf" := by
  have h := c5_placement_collisions.2.2
    ["/dest/2024/05/17/foo.pdf", "/dest/2024/05/17/foo_1.pdf"]
    "/dest/2024/05/17" "foo" "foo.pdf" 1
    (by intro k hk; interval_cases k <;> decide) (by decide) (by decide)
  exact h.trans (by decide)

/-- C6: the OCR-text scan examines lines in document order; the first
line that parses under any accepted format determines the stamp, every
later line is ignored, and the interactive prompt is not consulted. -/
theorem c6_first_matching_line_wins (dryRun : Bool) (destDir tmpDir : String)
    (fs dirs : List String) (f : FileInput) (pre post : List String) (l s : String)
    (hocr : f.ocrOk = true)
    (hname : extract_date_from_filename (basenameOf f.path) = none)
    (hlines : pySplitlines f.pdftotextOut = pre ++ l :: post)
    (hpre : ∀ x ∈ pre, parse_date x = none)
    (hl : parse_date l = some s) :
    scanLines (pre ++ l :: post) = some s ∧
    (processOne dryRun destDir tmpDir fs dirs f).stamp = some s ∧
    (∀ p, FsAction.prompt p ∉ (processOne dryRun destDir tmpDir fs dirs f).actions) := by
  have hscan : scanLines (pre ++ l :: post) = some s := by
    rw [scanLines_append pre (l :: post) hpre]
    unfold scanLines
    rw [hl]
  have hscan2 : scanLines (pySplitlines f.pdftotextOut) = some s := by
    rw [hlines]
    exact hscan
  have hrd := resolveDate_of_scan f (joinPath tmpDir (basenameOf f.path)) s hname hscan2
  obtain ⟨herr, hstamp, hdest, hacts⟩ :=
    processOne_resolved dryRun destDir tmpDir fs dirs f _ s hocr hrd
  refine ⟨hscan, hstamp, ?_⟩
  intro p hmem
  rw [hacts] at hmem
  cases dryRun <;> simp at hmem

/-- Witness for C6: a non-parsing first line, a parsing second line
and a parsing third line; the second line wins. -/
theorem c6_witness :
    scanLines (["scribble"] ++ "2024-05-17" :: ["2023-01-01"]) = some "20240517" ∧
    (processOne false "/dest" "/tmp/t" [] []
      ⟨"/scan/doc.pdf", true, 0, "scribble\n2024-05-17\n2023-01-01", "20220101", []⟩).stamp =
      some "20240517" := by
  obtain ⟨h1, h2, -⟩ := c6_first_matching_line_wins false "/dest" "/tmp/t" [] []
    ⟨"/scan/doc.pdf", true, 0, "scribble\n2024-05-17\n2023-01-01", "20220101", []⟩
    ["scribble"] ["2023-01-01"] "2024-05-17" "20240517" rfl (by decide) (by decide)
    (by decide) (by decide)
  exact ⟨h1, h2⟩

/-- C7: when a required external tool (ocrmypdf or pdftotext) is not
resolvable on the path, the program exits with status 1 before
processing any file — the trace is empty, so nothing is OCR'd, moved
or deleted, and no stamp reaches placement. -/
theorem c7_missing_dependency_aborts (which : String → Bool) (dryRun : Bool)
    (destDir tmpDir : String) (files : List FileInput) (fs dirs : List String)
    (h : which "ocrmypdf" = false ∨ which "pdftotext" = false) :
    (mainRun which dryRun destDir tmpDir files fs dirs).1 = 1 ∧
    (mainRun which dryRun destDir tmpDir files fs dirs).2.actions = [] ∧
    (mainRun which dryRun destDir tmpDir files fs dirs).2.stamps = [] := by
  have hdep : check_dependencies which = some 1 := by
    unfold check_dependencies
    rcases h with h1 | h1
    · simp [h1]
    · by_cases h2 : which "ocrmypdf" = true
      · simp [h2, h1]
      · have h3 : which "ocrmypdf" = false := by
          revert h2
          cases which "ocrmypdf" <;> simp
        simp [h3]
  unfold mainRun
  rw [hdep]
  exact ⟨rfl, rfl, rfl⟩

/-- Witness for C7: a path lookup that only finds pdftotext. -/
theorem c7_witness :
    (mainRun (fun t => t == "pdftotext") false "/dest" "/tmp/t"
      [⟨"/scan/a.pdf", true, 0, "", "20220101", ["x"]⟩] [] []).1 = 1 ∧
    (mainRun (fun t => t == "pdftotext") false "/dest" "/tmp/t"
      [⟨"/scan/a.pdf", true, 0, "", "20220101", ["x"]⟩] [] []).2.actions = [] ∧
    (mainRun (fun t => t == "pdftotext") false "/dest" "/tmp/t"
      [⟨"/scan/a.pdf", true, 0, "", "20220101", ["x"]⟩] [] []).2.stamps = [] :=
  c7_missing_dependency_aborts (fun t => t == "pdftotext") false "/dest" "/tmp/t"
    [⟨"/scan/a.pdf", true, 0, "", "20220101", ["x"]⟩] [] [] (Or.inl (by decide))

/-- C8: a non-zero ocrmypdf exit aborts the per-file operation and the
whole run immediately — the trace ends right after the failed OCR
attempt, with no pdftotext fallback for that file and nothing for the
following files — and the scratch directory is still removed on that
exceptional exit. -/
theorem c8_ocr_failure_aborts (dryRun : Bool) (destDir tmpDir : String)
    (pre : List FileInput) (f : FileInput) (post : List FileInput) (fs dirs : List String)
    (hf : f.ocrOk = false)
    (hpre : (processFilesCore dryRun destDir tmpDir pre fs dirs).err = none) :
    (process_files dryRun destDir tmpDir (pre ++ f :: post) fs dirs).err =
      some (RunError.ocrFailed f.path) ∧
    (process_files dryRun destDir tmpDir (pre ++ f :: post) fs dirs).actions =
      (processFilesCore dryRun destDir tmpDir pre fs dirs).actions ++
        [FsAction.runOcr f.path (joinPath tmpDir (basenameOf f.path)),
         FsAction.rmtree tmpDir] := by
  obtain ⟨h1, h2⟩ := core_abort dryRun destDir tmpDir f post hf pre fs dirs hpre
  unfold process_files
  constructor
  · exact h1
  · show (processFilesCore dryRun destDir tmpDir (pre ++ f :: post) fs dirs).actions ++
      [FsAction.rmtree tmpDir] = _
    rw [h2, List.append_assoc]
    rfl

/-- Witness for C8: one good file, then a file whose OCR fails, then
another file; the run stops at the failure and still removes the
scratch directory. -/
theorem c8_witness :
    (process_files false "/dest" "/tmp/t"
      [⟨"/scan/20240517_a.pdf", true, 0, "", "20220101", []⟩,
       ⟨"/scan/bad.pdf", false, 0, "", "20220101", []⟩,
       ⟨"/scan/after.pdf", true, 0, "", "20220101", ["x"]⟩] [] []).err =
      some (RunError.ocrFailed "/scan/bad.pdf") ∧
    (process_files false "/dest" "/tmp/t"
      [⟨"/scan/20240517_a.pdf", true, 0, "", "20220101", []⟩,
       ⟨"/scan/bad.pdf", false, 0, "", "20220101", []⟩,
       ⟨"/scan/after.pdf", true, 0, "", "20220101", ["x"]⟩] [] []).actions =
      [FsAction.runOcr "/scan/20240517_a.pdf" "/tmp/t/20240517_a.pdf",
       FsAction.mkdirs "/dest/2024/05/17",
       FsAction.move "/tmp/t/20240517_a.pdf" "/dest/2024/05/17/20240517_a.pdf",
       FsAction.removeFile "/scan/20240517_a.pdf",
       FsAction.runOcr "/scan/bad.pdf" "/tmp/t/bad.pdf",
       FsAction.rmtree "/tmp/t"] := by
  obtain ⟨h1, h2⟩ := c8_ocr_failure_aborts false "/dest" "/tmp/t"
    [⟨"/scan/20240517_a.pdf", true, 0, "", "20220101", []⟩]
    ⟨"/scan/bad.pdf", false, 0, "", "20220101", []⟩
    [⟨"/scan/after.pdf", true, 0, "", "20220101", ["x"]⟩] [] [] rfl (by decide)
  exact ⟨h1, h2.trans (by decide)⟩

/-- C9 counterexample: pdftotext exits non-zero for a file, yet its
captured stdout holds a parsing line; the stamp comes from that line
and the interactive prompt is never consulted, so a non-zero
text-extraction exit does not imply falling through to the prompt. -/
theorem c9_counterexample :
    (processOne false "/dest" "/tmp/t" [] []
      ⟨"/scan/doc.pdf", true, 1, "2024-05-17", "20220101", ["20200101"]⟩).stamp =
      some "20240517" ∧
    (processOne false "/dest" "/tmp/t" [] []
      ⟨"/scan/doc.pdf", true, 1, "2024-05-17", "20220101", ["20200101"]⟩).actions =
      [FsAction.runOcr "/scan/doc.pdf" "/tmp/t/doc.pdf",
       FsAction.runPdftotext "/tmp/t/doc.pdf",
       FsAction.mkdirs "/dest/2024/05/17",
       FsAction.move "/tmp/t/doc.pdf" "/dest/2024/05/17/doc.pdf",
       FsAction.removeFile "/scan/doc.pdf"] := by
  exact ⟨by decide, by decide⟩

/-- C9 amended: a failing pdftotext is not fatal — its exit status is
ignored entirely, the captured stdout being scanned as usual — and for
any file where neither filename pattern matches and no stdout line
parses, resolution falls through to the interactive prompt and the run
continues. -/
theorem c9_amended_pdftotext_nonfatal (dryRun : Bool) (destDir tmpDir : String)
    (fs dirs : List String) (f : FileInput) (e : Nat) :
    processOne dryRun destDir tmpDir fs dirs { f with pdftotextExit := e } =
      processOne dryRun destDir tmpDir fs dirs f ∧
    (f.ocrOk = true →
      extract_date_from_filename (basenameOf f.path) = none →
      scanLines (pySplitlines f.pdftotextOut) = none →
      ∀ (acts : List FsAction) (s : String),
        interactiveLoop f.path f.ctimeStamp f.userInputs = (acts, some s) →
        (processOne dryRun destDir tmpDir fs dirs f).err = none ∧
        (processOne dryRun destDir tmpDir fs dirs f).stamp = some s ∧
        FsAction.prompt f.path ∈ (processOne dryRun destDir tmpDir fs dirs f).actions) := by
  constructor
  · cases f
    rfl
  · intro hocr hname hscan acts s hint
    have hrd := resolveDate_of_interactive f (joinPath tmpDir (basenameOf f.path)) hname hscan
    rw [hint] at hrd
    obtain ⟨herr, hstamp, hdest, hacts⟩ := processOne_resolved dryRun destDir tmpDir fs dirs f
      (FsAction.runPdftotext (joinPath tmpDir (basenameOf f.path)) :: acts) s hocr hrd
    refine ⟨herr, hstamp, ?_⟩
    rw [hacts]
    have hp : FsAction.prompt f.path ∈ acts := by
      have hm := interactiveLoop_prompt_mem f.path f.ctimeStamp f.userInputs
      rw [hint] at hm
      exact hm
    cases dryRun <;> simp [hp]

/-- Witness for the amended C9: a file with failing pdftotext and no
date anywhere falls to the prompt, whose answer becomes the stamp. -/
theorem c9_witness :
    (processOne false "/dest" "/tmp/t" [] []
      ⟨"/scan/misc.pdf", true, 1, "just words", "20220101", ["20200101"]⟩).err = none ∧
    (processOne false "/dest" "/tmp/t" [] []
      ⟨"/scan/misc.pdf", true, 1, "just words", "20220101", ["20200101"]⟩).stamp =
      some "20200101" ∧
    FsAction.prompt "/scan/misc.pdf" ∈
      (processOne false "/dest" "/tmp/t" [] []
        ⟨"/scan/misc.pdf", true, 1, "just words", "20220101", ["20200101"]⟩).actions :=
  (c9_amended_pdftotext_nonfatal false "/dest" "/tmp/t" [] []
      ⟨"/scan/misc.pdf", true, 1, "just words", "20220101", ["20200101"]⟩ 1).2
    rfl (by decide) (by decide) [FsAction.prompt "/scan/misc.pdf"] "20200101" (by decide)

/-- C10: only names ending in the literal lowercase ".pdf" are
enumerated by the glob pattern, and both filename date patterns demand
that same lowercase ending (possibly followed by the one trailing
newline the regex anchor tolerates); in particular "20240517_x.PDF" is
neither enumerated nor matched by the prefix pattern. -/
theorem c10_lowercase_pdf_only :
    globPdfMatch "20240517_x.PDF" = false ∧
    matchesPrefixPattern "20240517_x.PDF" = false ∧
    globPdfMatch "20240517_x.pdf" = true ∧
    matchesPrefixPattern "20240517_x.pdf" = true ∧
    (∀ name : String, matchesPrefixPattern name = true →
        endsWithChars name.data ".pdf".data = true ∨
        endsWithChars name.data (".pdf" ++ "\n").data = true) ∧
    (∀ name : String, matchesDescriptivePattern name = true →
        endsWithChars name.data ".pdf".data = true ∨
        endsWithChars name.data (".pdf" ++ "\n").data = true) := by
  refine ⟨by decide, by decide, by decide, by decide, ?_, ?_⟩
  · intro name h
    exact matchesPrefixPattern_pdf_suffix name h
  · intro name h
    exact matchesDescriptivePattern_pdf_suffix name h

/-- Witness for C10 at a concrete lowercase name. -/
theorem c10_witness :
    endsWithChars ("20240517_x.pdf").data ".pdf".data = true ∨
    endsWithChars ("20240517_x.pdf").data (".pdf" ++ "\n").data = true :=
  c10_lowercase_pdf_only.2.2.2.2.1 "20240517_x.pdf" (by decide)

end PdfRefile
